import Mathlib

/-!
Shallow embedding of `KO2Pathway.py` (KEGG ortholog-to-pathway summary
pipeline).  Strings are modelled through their character lists; Python string
helpers (`split`, `strip`, `replace`, `lower`, comparison) are re-implemented
as structural recursions over `List Char` so that every definition is
executable and kernel-reducible.  Network interaction is modelled by a pure
oracle `net : String → Response` mapping a URL to the HTTP response, and the
side effects of the two lookup loops (requests issued, `sleep(0.2)` calls)
are reified as an event trace.  A Python exception (`IndexError`) is modelled
by `Option`/`none` results.
-/

namespace KO2

/-- Lexicographic strict comparison of character lists by code point, the
order Python uses to compare strings (and pandas uses to sort string group
keys). -/
def lexLtB : List Char → List Char → Bool
  | [], [] => false
  | [], _ :: _ => true
  | _ :: _, [] => false
  | a :: as, b :: bs => if a < b then true else if b < a then false else lexLtB as bs

/-- Strict comparison of strings by code point, `s < t` in Python. -/
def strLtB (s t : String) : Bool := lexLtB s.data t.data

/-- Python `str.split(sep)` for a one-character separator: splits on every
occurrence, keeping empty pieces (`"".split(sep) == [""]`). -/
def splitOnChar (sep : Char) : List Char → List (List Char)
  | [] => [[]]
  | c :: cs =>
    if c = sep then [] :: splitOnChar sep cs
    else
      match splitOnChar sep cs with
      | [] => [[c]]
      | t :: ts => (c :: t) :: ts

/-- Whitespace characters removed by Python `str.strip()` (the ASCII ones;
the inputs of this program are ASCII). -/
def isPyWS (c : Char) : Bool :=
  c == ' ' || c == '\t' || c == '\n' || c == '\r' || c == Char.ofNat 11 || c == Char.ofNat 12

/-- Python `str.strip()` on a character list. -/
def trimL (l : List Char) : List Char :=
  ((l.dropWhile isPyWS).reverse.dropWhile isPyWS).reverse

/-- Python `str.strip()`. -/
def trimS (s : String) : String := ⟨trimL s.data⟩

/-- Python `str.lower()` on a character list (ASCII case mapping, which is
all this program's data uses). -/
def lowerL (l : List Char) : List Char := l.map Char.toLower

/-- Python `s.replace("ko:", "")`: removes every (non-overlapping,
left-to-right) occurrence of `ko:`, as on line 22 of `KO2Pathway.py`. -/
def stripKoTag : List Char → List Char
  | 'k' :: 'o' :: ':' :: rest => stripKoTag rest
  | c :: rest => c :: stripKoTag rest
  | [] => []

/-- Python `s.replace("ko:", "")` on strings. -/
def stripKo (s : String) : String := ⟨stripKoTag s.data⟩

/-- Python `s.replace("path:", "")`, as on line 42 of `KO2Pathway.py`. -/
def stripPathTag : List Char → List Char
  | 'p' :: 'a' :: 't' :: 'h' :: ':' :: rest => stripPathTag rest
  | c :: rest => c :: stripPathTag rest
  | [] => []

/-- Python `s.split(',')` on strings. -/
def splitComma (s : String) : List String :=
  (splitOnChar ',' s.data).map (fun l => (⟨l⟩ : String))

/-- Python `s.split('\t')` on strings. -/
def splitTab (s : String) : List String :=
  (splitOnChar '\t' s.data).map (fun l => (⟨l⟩ : String))

/-- The validation pattern of line 24, `str.match(r'^K\d{5}$', na=False)`:
the literal letter `K` followed by exactly five digits (`\d` modelled as the
ASCII digits the KO identifiers use). -/
def isValidKO (s : String) : Bool :=
  match s.data with
  | 'K' :: ds => ds.length == 5 && ds.all Char.isDigit
  | _ => false

/-- Comparator written from the SPEC's words, not from the source: the
spec's validation pattern `^[A-Z]\d{5}$` — any single uppercase letter
followed by exactly five digits. -/
def matchesSpecPattern (s : String) : Bool :=
  match s.data with
  | c :: ds => c.isUpper && ds.length == 5 && ds.all Char.isDigit
  | [] => false

/-- One raw input row of `preprocess_input` (line 16): the `gene` field and
the `ko_raw` field, `none` modelling a missing value (pandas `NaN`). -/
def RawRow : Type := String × Option String

/-- `preprocess_input` (lines 15-26): drop rows whose `ko_raw` is missing or
the placeholder `-`; explode comma-separated KO fields into one row each;
remove every occurrence of `ko:`; keep only codes matching `^K\d{5}$`. -/
def preprocess_input (rows : List (String × Option String)) : List (String × String) :=
  ((rows.filterMap (fun r =>
      match r.2 with
      | none => none
      | some raw => if raw = "-" then none else some (r.1, raw))).flatMap
    (fun r => (splitComma r.2).map (fun c => (r.1, stripKo c)))).filter
    (fun r => isValidKO r.2)

/-- An HTTP response as the code observes it: `status_code` and `text`. -/
structure Response where
  status : Nat
  body : String
deriving DecidableEq

/-- Observable side effects of the two lookup loops: an HTTP GET of a URL,
or a `sleep` of the given number of milliseconds. -/
inductive Event where
  | request : String → Event
  | sleep : Nat → Event
deriving DecidableEq

/-- Whether an event is an external request. -/
def Event.isReq : Event → Bool
  | Event.request _ => true
  | Event.sleep _ => false

/-- One resolved KO-to-pathway membership, a row of `mapping_df`. -/
structure Edge where
  ko : String
  pathway_id : String
deriving DecidableEq

/-- The URL built on line 36 for one KO code. -/
def linkUrl (ko : String) : String := "https://rest.kegg.jp/link/pathway/ko:" ++ ko

/-- The URL built on line 55 for one pathway id. -/
def listUrl (pw : String) : String := "https://rest.kegg.jp/list/" ++ pw

/-- Python `s.startswith("map")`. -/
def startsWithMap (s : String) : Bool := s.data.take 3 == ['m', 'a', 'p']

/-- Lines 40-44: a response line yields an edge iff it has exactly two
tab-separated fields and the second, after removing `path:`, starts with
`map`. -/
def parseLinkLine (ko : String) (line : String) : Option Edge :=
  let parts := splitTab line
  if parts.length = 2 then
    let pw : String := ⟨stripPathTag (parts.getD 1 "").data⟩
    if startsWithMap pw then some ⟨ko, pw⟩ else none
  else none

/-- Lines 38-44: the edges one KO's lookup response contributes. A non-200
status or an (up to whitespace) empty body contributes nothing. -/
def linkEdges (ko : String) (r : Response) : List Edge :=
  if r.status = 200 ∧ trimS r.body ≠ "" then
    ((splitOnChar '\n' (trimS r.body).data).map (fun l => (⟨l⟩ : String))).filterMap
      (parseLinkLine ko)
  else []

/-- The live-resolution loop of lines 34-45: one request per KO code, a
`sleep(0.2)` (200 ms) ending every iteration whatever the response was.
Returns the accumulated edges and the event trace. -/
def liveResolve (net : String → Response) : List String → List Edge × List Event
  | [] => ([], [])
  | ko :: rest =>
    (linkEdges ko (net (linkUrl ko)) ++ (liveResolve net rest).1,
     Event.request (linkUrl ko) :: Event.sleep 200 :: (liveResolve net rest).2)

/-- `fetch_ko_pathway_mapping` (lines 28-50): if a cache file exists
(`cache = some edges`, with `edges` the pairs stored in it) its content is
returned as-is and no lookup happens; otherwise every code is resolved
live.  Returns the mapping and the trace of external events. -/
def fetch_ko_pathway_mapping (ko_list : List String) (cache : Option (List Edge))
    (net : String → Response) : List Edge × List Event :=
  match cache with
  | some edges => (edges, [])
  | none => liveResolve net ko_list

/-- Line 58, `r.text.strip().split("\t")[1]`: the second tab-separated field
of the stripped body; `none` models the `IndexError` Python raises when the
body holds no tab. -/
def descField (body : String) : Option String :=
  (splitTab (trimS body))[1]?

/-- `fetch_pathway_descriptions` (lines 52-63): one request per pathway id;
a 200 response with non-empty body yields its second tab field, any other
response yields `"Unknown"`; each iteration ends with `sleep(0.2)`.  A 200
non-empty body without a tab raises `IndexError`, modelled as a `none`
result with the trace truncated at the failing request (the exception
aborts the loop before that iteration's sleep). -/
def fetch_pathway_descriptions (net : String → Response) :
    List String → Option (List (String × String)) × List Event
  | [] => (some [], [])
  | pw :: rest =>
    if (net (listUrl pw)).status = 200 ∧ trimS (net (listUrl pw)).body ≠ "" then
      match descField (net (listUrl pw)).body with
      | none => (none, [Event.request (listUrl pw)])
      | some d =>
        ((fetch_pathway_descriptions net rest).1.map (fun l => (pw, d) :: l),
         Event.request (listUrl pw) :: Event.sleep 200 ::
           (fetch_pathway_descriptions net rest).2)
    else
      ((fetch_pathway_descriptions net rest).1.map (fun l => (pw, "Unknown") :: l),
       Event.request (listUrl pw) :: Event.sleep 200 ::
         (fetch_pathway_descriptions net rest).2)

/-- Line 139: attach `pathway_description = desc_map[pathway_id]` to every
edge, giving the `(pathway_id, pathway_description)` column pair that the
groupby of line 143 groups on. `dm` is the (total, line 61 guarantees it)
description map. -/
def edgeRows (edges : List Edge) (dm : String → String) : List (String × String) :=
  edges.map (fun e => (e.pathway_id, dm e.pathway_id))

/-- The ascending lexicographic order on `(pathway_id, pathway_description)`
group keys that pandas `groupby(..., sort=True)` (the line 143 default)
emits its groups in. -/
def keyLe (a b : String × String) : Prop :=
  strLtB a.1 b.1 = true ∨ (a.1 = b.1 ∧ lexLtB b.2.data a.2.data = false)

instance : DecidableRel keyLe := fun a b =>
  decidable_of_iff (strLtB a.1 b.1 = true ∨ (a.1 = b.1 ∧ lexLtB b.2.data a.2.data = false))
    Iff.rfl

/-- One row of `summary_df` (lines 142-146). -/
structure SummaryRow where
  pathway_id : String
  pathway_description : String
  count : Nat
deriving DecidableEq

/-- The key ordering lifted to summary rows. -/
def rowLe (x y : SummaryRow) : Prop :=
  keyLe (x.pathway_id, x.pathway_description) (y.pathway_id, y.pathway_description)

/-- Lines 142-146, `groupby(["pathway_id", "pathway_description"]).size()`:
one row per distinct key, counting its occurrences, the rows emitted in
ascending key order (pandas `sort=True` default). -/
def summarize (rows : List (String × String)) : List SummaryRow :=
  (List.insertionSort keyLe rows.dedup).map
    (fun k => ⟨k.1, k.2, (rows.filter (fun x => decide (x = k))).length⟩)

/-- Line 155, `drop_duplicates(subset='pathway_description', keep='first')`:
keep a row iff its description was not seen earlier; `seen` accumulates the
descriptions already kept. -/
def dedupByDesc : List String → List SummaryRow → List SummaryRow
  | _, [] => []
  | seen, r :: rs =>
    if r.pathway_description ∈ seen then dedupByDesc seen rs
    else r :: dedupByDesc (r.pathway_description :: seen) rs

/-- Matching one alternation branch of a pattern at the start of `s`:
a literal character matches itself and `.` matches any character.  This is
Python `re` restricted to the pattern fragment `'|'.join(exclude_terms)`
can produce from metacharacter-free terms plus `.` — the fragment the
claims about line 152-153 exercise. -/
def branchMatchesAt : List Char → List Char → Bool
  | [], _ => true
  | _ :: _, [] => false
  | p :: ps, c :: cs => (p == '.' || p == c) && branchMatchesAt ps cs

/-- Python `re.search` of one alternation branch: does it match at some
position of `s`? -/
def branchSearch (p : List Char) : List Char → Bool
  | [] => branchMatchesAt p []
  | c :: cs => branchMatchesAt p (c :: cs) || branchSearch p cs

/-- Python `re.search(pat, s) is not None` for a pattern made of literal
characters, `.` and top-level alternation `|` — the semantics pandas
`str.contains(pattern)` (line 153, `regex=True` default) gives the joined
exclusion pattern. -/
def regexSearch (pat : List Char) (s : List Char) : Bool :=
  (splitOnChar '|' pat).any (fun b => branchSearch b s)

/-- Python `'|'.join(...)` on character lists (line 152). -/
def joinBar : List (List Char) → List Char
  | [] => []
  | [t] => t
  | t :: ts => t ++ '|' :: joinBar ts

/-- Lines 151-152: lower-case every exclusion term and join with `|`. -/
def buildPattern (terms : List String) : List Char :=
  joinBar (terms.map (fun t => lowerL t.data))

/-- Lines 151-153: drop every summary row whose lower-cased description the
joined exclusion pattern matches somewhere, via regex search. -/
def excludeFilter (terms : List String) (rows : List SummaryRow) : List SummaryRow :=
  rows.filter (fun r => !(regexSearch (buildPattern terms) (lowerL r.pathway_description.data)))

/-- Whether the first list occurs at the start of the second. -/
def isPrefixB : List Char → List Char → Bool
  | [], _ => true
  | _ :: _, [] => false
  | p :: ps, c :: cs => p == c && isPrefixB ps cs

/-- Comparator written from the SPEC's words, not from the source: literal
(case-already-folded) substring occurrence, the "substring match, not
whole-word and not pattern match" the spec prescribes for exclusion. -/
def isSubstrB (p : List Char) : List Char → Bool
  | [] => isPrefixB p []
  | c :: cs => isPrefixB p (c :: cs) || isSubstrB p cs

/-- A character that is not a Python regular-expression metacharacter, so
that `re` treats it as a literal. -/
def plainChar (c : Char) : Bool :=
  !(c ∈ ['.', '|', '*', '+', '?', '(', ')', '[', ']', Char.ofNat 123, Char.ofNat 125,
        '^', '$', '\\'])

/-- Lines 46-49 for the written artifact: `pd.DataFrame(records)` has the
columns `ko`, `pathway_id` when `records` is non-empty, and NO columns at
all when `records == []`; `to_csv(sep='\t', index=False)` then emits the
header line (empty for no columns) followed by one line per row. -/
def writeCache : List Edge → List String
  | [] => [""]
  | e :: es => "ko\tpathway_id" :: (e :: es).map (fun x => x.ko ++ "\t" ++ x.pathway_id)

/-- Line 31, `pd.read_csv(cache_file, sep='\t')`: the first line is the
header; a file whose content is blank has no columns to parse and raises
`EmptyDataError` (modelled as `none`); otherwise each subsequent line with
exactly two tab-separated fields is one `(ko, pathway_id)` row. -/
def readCache (lines : List String) : Option (List Edge) :=
  match lines with
  | [] => none
  | header :: rows =>
    if trimS header = "" then none
    else some (rows.filterMap (fun ln =>
      match splitTab ln with
      | [a, b] => some ⟨a, b⟩
      | _ => none))

/-- The header of the summary artifact written on line 159. -/
def summaryHeader : String := "pathway_id\tpathway_description\tKO_count"

/-- Line 159, `summary_df.to_csv(output, sep='\t', index=False)`: the header
line followed by one line per summary row. -/
def writeSummaryLines (rows : List SummaryRow) : List String :=
  summaryHeader :: rows.map
    (fun r => r.pathway_id ++ "\t" ++ r.pathway_description ++ "\t" ++ toString r.count)

/-- `plot_circular_barplot`, data step (lines 66-71): the bar heights are
the `KO_count` column with the first element appended again to close the
circle, `np.concatenate((counts, [counts[0]]))`.  On an empty table
`counts[0]` raises `IndexError`, modelled as `none`. -/
def plot_circular_barplot (rows : List SummaryRow) : Option (List Nat) :=
  match rows.map (fun r => r.count) with
  | [] => none
  | c :: cs => some ((c :: cs) ++ [c])

/-- Lines 158-165 of `main`: the summary artifact is always written, then,
if plotting was requested, the top-20 slice is handed to the chart step
(whose outcome is `some` of the chart data, or `some none` for the raised
`IndexError`). -/
def main_output (rows : List SummaryRow) (plotFlag : Bool) :
    List String × Option (Option (List Nat)) :=
  (writeSummaryLines rows, if plotFlag then some (plot_circular_barplot (rows.take 20)) else none)

/-- A network oracle that fails every request, for concrete instances. -/
def net404 : String → Response := fun _ => ⟨404, ""⟩

/-- A network oracle answering 200 with a tab-free body: the shape that
makes line 58 raise `IndexError`. -/
def netNoTab : String → Response := fun _ => ⟨200, "map00001 Glycolysis"⟩

/-- A network oracle that resolves one pathway id and fails the rest, for
concrete instances. -/
def netOneDesc : String → Response := fun u =>
  if u = listUrl "map00010" then ⟨200, "map00010\tGlycolysis"⟩ else ⟨404, ""⟩

end KO2

namespace KO2

theorem lexLtB_irrefl (l : List Char) : lexLtB l l = false := by
  induction l with
  | nil => rfl
  | cons c cs ih => simp [lexLtB, ih]

theorem lexLtB_trichotomy : ∀ a b : List Char, lexLtB a b = false → lexLtB b a = false → a = b := by
  intro a
  induction a with
  | nil =>
    intro b h1 _
    cases b with
    | nil => rfl
    | cons x xs => simp [lexLtB] at h1
  | cons c cs ih =>
    intro b h1 h2
    cases b with
    | nil => simp [lexLtB] at h2
    | cons x xs =>
      rcases lt_trichotomy c x with h | h | h
      · simp [lexLtB, h] at h1
      · subst h
        simp only [lexLtB, lt_irrefl, if_false] at h1 h2
        rw [ih xs h1 h2]
      · simp [lexLtB, h] at h2

theorem lexLtB_trans : ∀ a b c : List Char,
    lexLtB a b = true → lexLtB b c = true → lexLtB a c = true := by
  intro a
  induction a with
  | nil =>
    intro b c h1 h2
    cases b with
    | nil => simp [lexLtB] at h1
    | cons y ys =>
      cases c with
      | nil => simp [lexLtB] at h2
      | cons z zs => simp [lexLtB]
  | cons x xs ih =>
    intro b c h1 h2
    cases b with
    | nil => simp [lexLtB] at h1
    | cons y ys =>
      cases c with
      | nil => simp [lexLtB] at h2
      | cons z zs =>
        rcases lt_trichotomy x y with hxy | hxy | hxy
        · rcases lt_trichotomy y z with hyz | hyz | hyz
          · simp [lexLtB, lt_trans hxy hyz]
          · subst hyz; simp [lexLtB, hxy]
          · simp [lexLtB, asymm hyz, hyz] at h2
        · subst hxy
          rcases lt_trichotomy x z with hxz | hxz | hxz
          · simp [lexLtB, hxz]
          · subst hxz
            simp only [lexLtB, lt_irrefl, if_false] at h1 h2 ⊢
            exact ih ys zs h1 h2
          · simp [lexLtB, asymm hxz, hxz] at h2
        · simp [lexLtB, asymm hxy, hxy] at h1

theorem lexLtB_asymm (a b : List Char) (h : lexLtB a b = true) : lexLtB b a = false := by
  cases hba : lexLtB b a
  · rfl
  · have := lexLtB_trans a b a h hba
    rw [lexLtB_irrefl] at this
    exact this.symm

theorem lexLtB_le_trans (a b c : List Char)
    (h1 : lexLtB b a = false) (h2 : lexLtB c b = false) : lexLtB c a = false := by
  cases hca : lexLtB c a
  · rfl
  · exfalso
    cases hab : lexLtB a b
    · have heq := lexLtB_trichotomy a b hab h1
      rw [heq] at hca
      rw [hca] at h2
      exact Bool.noConfusion h2
    · have := lexLtB_trans c a b hca hab
      rw [this] at h2
      exact Bool.noConfusion h2

theorem keyLe_refl (a : String × String) : keyLe a a := Or.inr ⟨rfl, lexLtB_irrefl _⟩

theorem keyLe_total (a b : String × String) : keyLe a b ∨ keyLe b a := by
  cases h1 : strLtB a.1 b.1
  · cases h2 : strLtB b.1 a.1
    · unfold strLtB at h1 h2
      have heq : a.1 = b.1 := String.ext (lexLtB_trichotomy _ _ h1 h2)
      cases h3 : lexLtB b.2.data a.2.data
      · exact Or.inl (Or.inr ⟨heq, h3⟩)
      · exact Or.inr (Or.inr ⟨heq.symm, lexLtB_asymm _ _ h3⟩)
    · exact Or.inr (Or.inl h2)
  · exact Or.inl (Or.inl h1)

theorem keyLe_trans (a b c : String × String) (h1 : keyLe a b) (h2 : keyLe b c) : keyLe a c := by
  rcases h1 with h1 | ⟨e1, l1⟩
  · rcases h2 with h2 | ⟨e2, l2⟩
    · exact Or.inl (lexLtB_trans _ _ _ h1 h2)
    · exact Or.inl (by rw [← e2]; exact h1)
  · rcases h2 with h2 | ⟨e2, l2⟩
    · exact Or.inl (by rw [e1]; exact h2)
    · exact Or.inr ⟨e1.trans e2, lexLtB_le_trans _ _ _ l1 l2⟩

theorem rowLe_refl (r : SummaryRow) : rowLe r r := keyLe_refl _

theorem summarize_sorted (rows : List (String × String)) :
    List.Pairwise rowLe (summarize rows) := by
  haveI : IsTotal (String × String) keyLe := ⟨keyLe_total⟩
  haveI : IsTrans (String × String) keyLe := ⟨fun a b c => keyLe_trans a b c⟩
  have h := List.sorted_insertionSort keyLe rows.dedup
  unfold summarize
  rw [List.pairwise_map]
  refine h.imp ?_
  intro a b hab
  simpa [rowLe] using hab

theorem mem_summarize_key {rows : List (String × String)} {s : SummaryRow}
    (hs : s ∈ summarize rows) :
    (s.pathway_id, s.pathway_description) ∈ rows ∧
      s.count = (rows.filter (fun x => decide (x = (s.pathway_id, s.pathway_description)))).length := by
  unfold summarize at hs
  rcases List.mem_map.1 hs with ⟨k, hk, rfl⟩
  have hk' : k ∈ rows.dedup := (List.perm_insertionSort keyLe rows.dedup).mem_iff.1 hk
  have hkr : k ∈ rows := List.mem_dedup.1 hk'
  constructor
  · simpa using hkr
  · simp

end KO2

namespace KO2

theorem dedupByDesc_not_seen : ∀ (seen : List String) (l : List SummaryRow) (r : SummaryRow),
    r ∈ dedupByDesc seen l → r.pathway_description ∉ seen := by
  intro seen l
  induction l generalizing seen with
  | nil => intro r hr; simp [dedupByDesc] at hr
  | cons x xs ih =>
    intro r hr
    by_cases hx : x.pathway_description ∈ seen
    · simp only [dedupByDesc, if_pos hx] at hr
      exact ih seen r hr
    · simp only [dedupByDesc, if_neg hx] at hr
      rcases List.mem_cons.1 hr with rfl | hr'
      · exact hx
      · intro hseen
        exact (ih _ r hr') (List.mem_cons_of_mem _ hseen)

theorem dedupByDesc_min : ∀ (seen : List String) (l : List SummaryRow),
    List.Pairwise rowLe l →
    ∀ r ∈ dedupByDesc seen l, ∀ g ∈ l,
      g.pathway_description = r.pathway_description → rowLe r g := by
  intro seen l
  induction l generalizing seen with
  | nil => intro _ r hr; simp [dedupByDesc] at hr
  | cons x xs ih =>
    intro hp r hr g hg hdesc
    rcases List.pairwise_cons.1 hp with ⟨hx_all, hp'⟩
    by_cases hx : x.pathway_description ∈ seen
    · simp only [dedupByDesc, if_pos hx] at hr
      rcases List.mem_cons.1 hg with rfl | hg'
      · exact absurd (hdesc ▸ hx) (dedupByDesc_not_seen _ _ _ hr)
      · exact ih seen hp' r hr g hg' hdesc
    · simp only [dedupByDesc, if_neg hx] at hr
      rcases List.mem_cons.1 hr with rfl | hr'
      · rcases List.mem_cons.1 hg with rfl | hg'
        · exact rowLe_refl _
        · exact hx_all g hg'
      · rcases List.mem_cons.1 hg with rfl | hg'
        · exact absurd (by rw [← hdesc]; exact List.mem_cons_self _ _)
            (dedupByDesc_not_seen _ _ _ hr')
        · exact ih _ hp' r hr' g hg' hdesc

/-- Claim C10: when several distinct pathway ids share one description, the
summary row that `drop_duplicates(subset='pathway_description', keep='first')`
keeps is the one whose `(pathway_id, pathway_description)` grouping key is
lexicographically smallest, because `groupby(..., sort=True)` emits the
groups in ascending key order before the deduplication runs: every kept row
`r` is `keyLe`-below every summary row `g` carrying the same description. -/
theorem C10_dedup_keeps_lex_min_key (edges : List Edge) (dm : String → String)
    (r g : SummaryRow)
    (hr : r ∈ dedupByDesc [] (summarize (edgeRows edges dm)))
    (hg : g ∈ summarize (edgeRows edges dm))
    (hdesc : g.pathway_description = r.pathway_description) :
    rowLe r g :=
  dedupByDesc_min [] _ (summarize_sorted _) r hr g hg hdesc

/-- Witness for C10 at a concrete input: the edge list mentions pathway `b`
before pathway `a`, both with description `d`; deduplication keeps the
`a` row (the smaller key), not the first-encountered `b` row. -/
theorem C10_dedup_keeps_lex_min_key_witness :
    ((⟨"a", "d", 1⟩ : SummaryRow) ∈
        dedupByDesc [] (summarize (edgeRows [⟨"k1", "b"⟩, ⟨"k2", "a"⟩] (fun _ => "d")))
      ∧ (⟨"b", "d", 1⟩ : SummaryRow) ∈ summarize (edgeRows [⟨"k1", "b"⟩, ⟨"k2", "a"⟩] (fun _ => "d")))
    ∧ rowLe ⟨"a", "d", 1⟩ ⟨"b", "d", 1⟩ :=
  ⟨⟨by decide, by decide⟩,
    C10_dedup_keeps_lex_min_key [⟨"k1", "b"⟩, ⟨"k2", "a"⟩] (fun _ => "d") _ _
      (by decide) (by decide) rfl⟩

/-- Claim C1: when the cache file exists, `fetch_ko_pathway_mapping` returns
exactly the pairs stored in the cache and issues zero external requests
(empty event trace), for every requested code set and network behaviour; in
particular resolving `[K00001]` against a cache holding `(K00001, map00010)`
returns exactly that edge with no lookup. -/
theorem C1_cache_is_strict_alternative (ko_list : List String) (cacheEdges : List Edge)
    (net : String → Response) :
    fetch_ko_pathway_mapping ko_list (some cacheEdges) net = (cacheEdges, [])
    ∧ fetch_ko_pathway_mapping ["K00001"] (some [⟨"K00001", "map00010"⟩]) net
        = ([⟨"K00001", "map00010"⟩], []) :=
  ⟨rfl, rfl⟩

/-- Counterexample for C2: the code `A12345` matches the spec's pattern
`^[A-Z]\d{5}$` (after prefix stripping, which leaves it unchanged), yet
`preprocess_input` drops it — line 24 only accepts the literal letter `K`. -/
theorem C2_counterexample :
    matchesSpecPattern (stripKo "A12345") = true
    ∧ preprocess_input [("g1", some "A12345")] = [] := by decide

/-- Claim C2 (amended): normalization keeps exactly the codes that, after
removing every occurrence of the `ko:` tag, match `^K\d{5}$` (the literal
letter `K`, not an arbitrary uppercase letter): every output code satisfies
`isValidKO`, and for every row whose code field is present and not the `-`
placeholder, every comma-separated piece whose stripped form satisfies
`isValidKO` appears in the output. -/
theorem C2_amended_normalization (rows : List (String × Option String)) :
    (∀ r ∈ preprocess_input rows, isValidKO r.2 = true)
    ∧ ∀ g raw, (g, some raw) ∈ rows → raw ≠ "-" →
        ∀ c ∈ splitComma raw, isValidKO (stripKo c) = true →
          (g, stripKo c) ∈ preprocess_input rows := by
  constructor
  · intro r hr
    exact (List.mem_filter.1 hr).2
  · intro g raw hrow hdash c hc hvalid
    unfold preprocess_input
    apply List.mem_filter.2
    refine ⟨?_, hvalid⟩
    apply List.mem_flatMap.2
    refine ⟨(g, raw), ?_, ?_⟩
    · exact List.mem_filterMap.2 ⟨(g, some raw), hrow, by simp [hdash]⟩
    · exact List.mem_map.2 ⟨c, hc, rfl⟩

/-- Witness for C2 (amended) at a concrete input: the piece `ko:K00001` of a
raw row strips to the valid code `K00001` and survives normalization. -/
theorem C2_amended_normalization_witness :
    isValidKO (stripKo "ko:K00001") = true
    ∧ ("g1", stripKo "ko:K00001") ∈ preprocess_input [("g1", some "ko:K00001")] :=
  ⟨by decide,
    (C2_amended_normalization [("g1", some "ko:K00001")]).2 "g1" "ko:K00001"
      (by decide) (by decide) "ko:K00001" (by decide) (by decide)⟩

/-- Claim C6 (code bug): the cache round-trip fails for the empty edge set.
A live pass that resolved no edges writes (via `pd.DataFrame([]).to_csv`) a
file holding only a blank header line, and `pd.read_csv` raises
`EmptyDataError` on that file (`none`), instead of reproducing the empty
edge set; for a non-empty edge set the round-trip is the identity. -/
theorem C6_empty_roundtrip_fails :
    readCache (writeCache []) = none
    ∧ readCache (writeCache [⟨"K00001", "map00010"⟩]) = some [⟨"K00001", "map00010"⟩] := by
  decide

/-- Claim C7 (code bug): with an empty summary table the artifact is written
(header line only) before the chart step runs, but when plotting is enabled
the chart step hits `counts[0]` on an empty array and raises `IndexError`
(`some none`) instead of being skipped or reporting no data; without
plotting the run completes. -/
theorem C7_empty_summary_plot_crashes :
    main_output [] true = ([summaryHeader], some none)
    ∧ main_output [] false = ([summaryHeader], none) := by decide

end KO2

namespace KO2

theorem summarize_desc_is_mapped {edges : List Edge} {dm : String → String} {s : SummaryRow}
    (hs : s ∈ summarize (edgeRows edges dm)) :
    s.pathway_description = dm s.pathway_id := by
  obtain ⟨hmem, _⟩ := mem_summarize_key hs
  rcases List.mem_map.1 hmem with ⟨e, _, hpair⟩
  have h1 := congrArg Prod.fst hpair
  have h2 := congrArg Prod.snd hpair
  simp only at h1 h2
  rw [← h1, ← h2]

/-- Claim C9: when the cache file exists the returned edge set is the whole
cache, not its restriction to the requested codes — the result does not
depend on `ko_list` at all — and every cached edge (also one whose code is
absent from `ko_list`) is counted in the summary: each summary row's
`KO_count` equals the number of cached edges carrying its pathway id. -/
theorem C9_cache_edges_flow_unrestricted (cacheEdges : List Edge) (ko_list : List String)
    (net : String → Response) (dm : String → String) :
    (fetch_ko_pathway_mapping ko_list (some cacheEdges) net).1 = cacheEdges
    ∧ ∀ s ∈ summarize (edgeRows cacheEdges dm),
        s.count = (cacheEdges.filter (fun e => decide (e.pathway_id = s.pathway_id))).length := by
  refine ⟨rfl, ?_⟩
  intro s hs
  obtain ⟨_, hcount⟩ := mem_summarize_key hs
  have hdm := summarize_desc_is_mapped hs
  rw [hcount]
  unfold edgeRows
  rw [List.filter_map, List.length_map]
  apply congrArg List.length
  apply List.filter_congr
  intro e _
  show decide ((e.pathway_id, dm e.pathway_id) = (s.pathway_id, s.pathway_description))
      = decide (e.pathway_id = s.pathway_id)
  rw [decide_eq_decide]
  constructor
  · intro h
    exact congrArg Prod.fst h
  · intro h
    rw [Prod.mk.injEq]
    exact ⟨h, by rw [h, ← hdm]⟩

/-- Witness for C9 at a concrete input: the cache holds an edge for
`K99999`, a code absent from the requested list `[K00001]`; the summary
still counts both cached edges of `map00010`. -/
theorem C9_cache_edges_flow_unrestricted_witness :
    ((⟨"map00010", "d", 2⟩ : SummaryRow) ∈
        summarize (edgeRows [⟨"K00001", "map00010"⟩, ⟨"K99999", "map00010"⟩] (fun _ => "d")))
    ∧ (⟨"map00010", "d", 2⟩ : SummaryRow).count
        = ([(⟨"K00001", "map00010"⟩ : Edge), ⟨"K99999", "map00010"⟩].filter
            (fun e => decide (e.pathway_id = (⟨"map00010", "d", 2⟩ : SummaryRow).pathway_id))).length :=
  ⟨by decide,
    (C9_cache_edges_flow_unrestricted [⟨"K00001", "map00010"⟩, ⟨"K99999", "map00010"⟩]
        ["K00001"] net404 (fun _ => "d")).2 _ (by decide)⟩

/-- Counterexample for C4: a 200 response whose non-empty body holds no tab
makes line 58 (`r.text.strip().split("\t")[1]`) raise `IndexError` (result
`none`), instead of mapping the pathway id to `"Unknown"`; the claimed
total mapping is not returned. -/
theorem C4_counterexample :
    (fetch_pathway_descriptions netNoTab ["map00001"]).1 = none := by decide

/-- Claim C4 (amended): `fetch_pathway_descriptions` returns a total
mapping over the input ids — every key present, in order — with every
failed lookup (non-200 status or whitespace-only body) mapped to the
literal `"Unknown"`, provided every 200 response with non-empty body
carries a second tab-separated field; a 200 non-empty body without one
raises `IndexError` instead. -/
theorem C4_amended_total_mapping_with_unknown (net : String → Response) :
    ∀ pws : List String,
      (∀ pw ∈ pws, (net (listUrl pw)).status = 200 → trimS (net (listUrl pw)).body ≠ "" →
          (descField (net (listUrl pw)).body).isSome = true) →
      ∃ m, (fetch_pathway_descriptions net pws).1 = some m
        ∧ m.map Prod.fst = pws
        ∧ ∀ pw ∈ pws,
            ¬ ((net (listUrl pw)).status = 200 ∧ trimS (net (listUrl pw)).body ≠ "") →
              (pw, "Unknown") ∈ m := by
  intro pws
  induction pws with
  | nil => exact fun _ => ⟨[], rfl, rfl, by simp⟩
  | cons pw rest ih =>
    intro h
    obtain ⟨m, hm, hkeys, hunk⟩ := ih (fun p hp => h p (List.mem_cons_of_mem _ hp))
    by_cases hok : (net (listUrl pw)).status = 200 ∧ trimS (net (listUrl pw)).body ≠ ""
    · obtain ⟨d, hd⟩ := Option.isSome_iff_exists.1 (h pw (List.mem_cons_self _ _) hok.1 hok.2)
      refine ⟨(pw, d) :: m, ?_, ?_, ?_⟩
      · simp only [fetch_pathway_descriptions, if_pos hok, hd, hm, Option.map_some']
      · simp [hkeys]
      · intro p hp hnot
        rcases List.mem_cons.1 hp with rfl | hp'
        · exact absurd hok hnot
        · exact List.mem_cons_of_mem _ (hunk p hp' hnot)
    · refine ⟨(pw, "Unknown") :: m, ?_, ?_, ?_⟩
      · simp only [fetch_pathway_descriptions, if_neg hok, hm, Option.map_some']
      · simp [hkeys]
      · intro p hp hnot
        rcases List.mem_cons.1 hp with rfl | hp'
        · exact List.mem_cons_self _ _
        · exact List.mem_cons_of_mem _ (hunk p hp' hnot)

/-- Witness for C4 (amended) at a concrete input: `netOneDesc` resolves
`map00010` and fails `map99999`; the result is total over both ids with
`map99999` mapped to `"Unknown"`. -/
theorem C4_amended_total_mapping_with_unknown_witness :
    (∀ pw ∈ ["map00010", "map99999"],
        (netOneDesc (listUrl pw)).status = 200 → trimS (netOneDesc (listUrl pw)).body ≠ "" →
          (descField (netOneDesc (listUrl pw)).body).isSome = true)
    ∧ ∃ m, (fetch_pathway_descriptions netOneDesc ["map00010", "map99999"]).1 = some m
        ∧ m.map Prod.fst = ["map00010", "map99999"]
        ∧ ∀ pw ∈ ["map00010", "map99999"],
            ¬ ((netOneDesc (listUrl pw)).status = 200 ∧ trimS (netOneDesc (listUrl pw)).body ≠ "") →
              (pw, "Unknown") ∈ m :=
  ⟨by decide,
    C4_amended_total_mapping_with_unknown netOneDesc ["map00010", "map99999"] (by decide)⟩

end KO2

namespace KO2

/-- Claim C8: the `sleep(0.2)` (200 ms) runs on every loop iteration of both
the live resolver (line 45) and the description enricher (line 62),
regardless of the response: the resolver trace is exactly request-then-sleep
per code for every network behaviour; the enricher trace is exactly
request-then-sleep per pathway id whenever the loop completes; and in every
enricher trace (also one truncated by the line 58 `IndexError`) no two
requests are adjacent — a sleep separates any two successive requests. -/
theorem C8_fixed_delay_every_iteration (net : String → Response)
    (kos pws : List String) :
    (liveResolve net kos).2
        = kos.flatMap (fun ko => [Event.request (linkUrl ko), Event.sleep 200])
    ∧ ((fetch_pathway_descriptions net pws).1.isSome = true →
        (fetch_pathway_descriptions net pws).2
          = pws.flatMap (fun pw => [Event.request (listUrl pw), Event.sleep 200]))
    ∧ List.Chain' (fun a b => a.isReq = false ∨ b.isReq = false)
        (fetch_pathway_descriptions net pws).2 := by
  refine ⟨?_, ?_, ?_⟩
  · induction kos with
    | nil => rfl
    | cons ko rest ih => simp [liveResolve, ih]
  · induction pws with
    | nil => exact fun _ => rfl
    | cons pw rest ih =>
      intro hsome
      by_cases hok : (net (listUrl pw)).status = 200 ∧ trimS (net (listUrl pw)).body ≠ ""
      · cases hd : descField (net (listUrl pw)).body with
        | none =>
          simp only [fetch_pathway_descriptions, if_pos hok, hd] at hsome
          exact absurd hsome (by simp)
        | some d =>
          simp only [fetch_pathway_descriptions, if_pos hok, hd] at hsome ⊢
          cases hrest : (fetch_pathway_descriptions net rest).1 with
          | none => rw [hrest] at hsome; simp at hsome
          | some m =>
            rw [List.flatMap_cons, ih (by rw [hrest]; rfl)]
            rfl
      · simp only [fetch_pathway_descriptions, if_neg hok] at hsome ⊢
        cases hrest : (fetch_pathway_descriptions net rest).1 with
        | none => rw [hrest] at hsome; simp at hsome
        | some m =>
          rw [List.flatMap_cons, ih (by rw [hrest]; rfl)]
          rfl
  · induction pws with
    | nil => simp [fetch_pathway_descriptions]
    | cons pw rest ih =>
      by_cases hok : (net (listUrl pw)).status = 200 ∧ trimS (net (listUrl pw)).body ≠ ""
      · cases hd : descField (net (listUrl pw)).body with
        | none =>
          simp only [fetch_pathway_descriptions, if_pos hok, hd]
          exact List.chain'_singleton _
        | some d =>
          simp only [fetch_pathway_descriptions, if_pos hok, hd]
          refine List.chain'_cons.2 ⟨Or.inr rfl, ?_⟩
          exact List.chain'_cons'.2 ⟨fun y _ => Or.inl rfl, ih⟩
      · simp only [fetch_pathway_descriptions, if_neg hok]
        refine List.chain'_cons.2 ⟨Or.inr rfl, ?_⟩
        exact List.chain'_cons'.2 ⟨fun y _ => Or.inl rfl, ih⟩

/-- Witness for C8 at a concrete input: a failing (404) lookup still ends
its iteration with the 200 ms sleep. -/
theorem C8_fixed_delay_every_iteration_witness :
    (fetch_pathway_descriptions net404 ["map00001"]).1.isSome = true
    ∧ (fetch_pathway_descriptions net404 ["map00001"]).2
        = (["map00001"] : List String).flatMap
            (fun pw => [Event.request (listUrl pw), Event.sleep 200]) :=
  ⟨by decide,
    (C8_fixed_delay_every_iteration net404 [] ["map00001"]).2.1 (by decide)⟩

end KO2

namespace KO2

theorem splitOnChar_of_not_mem (sep : Char) : ∀ l : List Char, sep ∉ l →
    splitOnChar sep l = [l] := by
  intro l
  induction l with
  | nil => intro _; rfl
  | cons c cs ih =>
    intro h
    have hc : ¬ c = sep := by
      intro e
      exact h (by rw [e]; exact List.mem_cons_self _ _)
    have hcs : sep ∉ cs := fun hm => h (List.mem_cons_of_mem _ hm)
    simp only [splitOnChar, if_neg hc, ih hcs]

theorem splitOnChar_append_sep (sep : Char) : ∀ (t r : List Char), sep ∉ t →
    splitOnChar sep (t ++ sep :: r) = t :: splitOnChar sep r := by
  intro t r
  induction t with
  | nil => intro _; simp [splitOnChar]
  | cons c cs ih =>
    intro h
    have hc : ¬ c = sep := by
      intro e
      exact h (by rw [e]; exact List.mem_cons_self _ _)
    have hcs : sep ∉ cs := fun hm => h (List.mem_cons_of_mem _ hm)
    simp only [List.cons_append, splitOnChar, List.append_eq, if_neg hc, ih hcs]

theorem splitOnChar_joinBar : ∀ ts : List (List Char), ts ≠ [] →
    (∀ t ∈ ts, '|' ∉ t) → splitOnChar '|' (joinBar ts) = ts := by
  intro ts
  induction ts with
  | nil => intro h; exact absurd rfl h
  | cons t ts' ih =>
    intro _ hmem
    cases ts' with
    | nil =>
      simp only [joinBar]
      exact splitOnChar_of_not_mem '|' t (hmem t (List.mem_cons_self _ _))
    | cons t2 ts'' =>
      simp only [joinBar]
      rw [splitOnChar_append_sep '|' t _ (hmem t (List.mem_cons_self _ _))]
      rw [ih (by simp) (fun u hu => hmem u (List.mem_cons_of_mem _ hu))]

theorem branchMatchesAt_plain : ∀ (b s : List Char), '.' ∉ b →
    branchMatchesAt b s = isPrefixB b s := by
  intro b
  induction b with
  | nil => intro s _; cases s <;> rfl
  | cons p ps ih =>
    intro s h
    have hp : ¬ p = '.' := by
      intro e
      exact h (by rw [← e]; exact List.mem_cons_self _ _)
    have hps : '.' ∉ ps := fun hm => h (List.mem_cons_of_mem _ hm)
    cases s with
    | nil => rfl
    | cons c cs =>
      simp only [branchMatchesAt, isPrefixB, ih cs hps]
      have hb : (p == '.') = false := by
        simp only [beq_eq_false_iff_ne, ne_eq]
        exact hp
      rw [hb, Bool.false_or]

theorem branchSearch_plain (b : List Char) (h : '.' ∉ b) :
    ∀ s : List Char, branchSearch b s = isSubstrB b s := by
  intro s
  induction s with
  | nil => simp only [branchSearch, isSubstrB, branchMatchesAt_plain _ _ h]
  | cons c cs ih => simp only [branchSearch, isSubstrB, branchMatchesAt_plain _ _ h, ih]

theorem list_any_map {α β : Type} (f : α → β) (p : β → Bool) :
    ∀ l : List α, (l.map f).any p = l.any (fun a => p (f a)) := by
  intro l
  induction l with
  | nil => rfl
  | cons x xs ih => simp only [List.map_cons, List.any_cons, ih]

theorem list_any_congr {α : Type} {p q : α → Bool} :
    ∀ l : List α, (∀ a ∈ l, p a = q a) → l.any p = l.any q := by
  intro l
  induction l with
  | nil => intro _; rfl
  | cons x xs ih =>
    intro h
    simp only [List.any_cons, h x (List.mem_cons_self _ _),
      ih (fun a ha => h a (List.mem_cons_of_mem _ ha))]

theorem regexSearch_plain_terms (terms : List String) (hne : terms ≠ [])
    (hplain : ∀ t ∈ terms, ∀ c ∈ lowerL t.data, plainChar c = true) (s : List Char) :
    regexSearch (buildPattern terms) s
      = terms.any (fun t => isSubstrB (lowerL t.data) s) := by
  unfold regexSearch buildPattern
  rw [splitOnChar_joinBar (terms.map (fun t => lowerL t.data))
      (by simpa using hne)
      (by
        intro u hu
        rcases List.mem_map.1 hu with ⟨t, ht, rfl⟩
        intro hbar
        exact absurd (hplain t ht _ hbar) (by decide))]
  rw [list_any_map]
  apply list_any_congr
  intro t ht
  apply branchSearch_plain
  intro hdot
  exact absurd (hplain t ht _ hdot) (by decide)

/-- Counterexample for C5: the exclusion term `a.c` contains the regex
metacharacter `.`; the description `Abc` does not contain `a.c` as a
literal substring (case-insensitively), yet the group is dropped, because
line 153 applies the joined terms as a regular expression
(`str.contains(pattern)` with its `regex=True` default), where `.` matches
`b`.  The claimed drop-iff-literal-substring equivalence is therefore false
for terms with special characters. -/
theorem C5_counterexample :
    excludeFilter ["a.c"] [⟨"map00001", "Abc", 1⟩] = []
    ∧ isSubstrB (lowerL "a.c".data) (lowerL "Abc".data) = false := by decide

/-- Claim C5 (amended): exclusion drops a group iff its description
contains, case-insensitively, one of the terms as a literal substring —
but only for a NON-EMPTY term list whose terms are free of regex
metacharacters.  The code joins the terms with `|` and matches the result
as a regular expression, so metacharacter terms match as patterns, and an
empty term list yields the empty pattern, which matches everything and
drops every group. -/
theorem C5_amended_exclusion_is_substring (terms : List String) (rows : List SummaryRow)
    (hne : terms ≠ [])
    (hplain : ∀ t ∈ terms, ∀ c ∈ lowerL t.data, plainChar c = true) :
    excludeFilter terms rows
      = rows.filter
          (fun r => !(terms.any (fun t => isSubstrB (lowerL t.data) (lowerL r.pathway_description.data)))) := by
  unfold excludeFilter
  apply List.filter_congr
  intro r _
  rw [regexSearch_plain_terms terms hne hplain]

/-- Witness for C5 (amended) at the spec's own example: term `metabolic`
(plain characters only) drops `Metabolic pathways` and keeps `Glycolysis`,
and the code's filter agrees with literal substring filtering. -/
theorem C5_amended_exclusion_is_substring_witness :
    ((["metabolic"] : List String) ≠ []
      ∧ ∀ t ∈ (["metabolic"] : List String), ∀ c ∈ lowerL t.data, plainChar c = true)
    ∧ excludeFilter ["metabolic"] [⟨"m1", "Metabolic pathways", 3⟩, ⟨"m2", "Glycolysis", 2⟩]
        = [(⟨"m1", "Metabolic pathways", 3⟩ : SummaryRow), ⟨"m2", "Glycolysis", 2⟩].filter
            (fun r => !((["metabolic"] : List String).any
                (fun t => isSubstrB (lowerL t.data) (lowerL r.pathway_description.data)))) :=
  ⟨⟨by decide, by decide⟩,
    C5_amended_exclusion_is_substring ["metabolic"]
      [⟨"m1", "Metabolic pathways", 3⟩, ⟨"m2", "Glycolysis", 2⟩] (by decide) (by decide)⟩

end KO2
